import Mathlib

/-!
Shallow embedding of the contract-parsing core of `mitali_jadhav.py`
(PDF-Contract-Parsing-CLI).  Strings are modelled as `List Char`; the
ASCII fragments of Python's regex character classes (`\s`, `[a-z]`,
`\d`, `\w`) are modelled by explicit code-point ranges.  Regex matchers
are hand-compiled into deterministic scanners, faithful to the
leftmost-match / greedy semantics of CPython's `re` module for the
specific patterns appearing in the source (all justified pattern by
pattern in the comments below).  The external fuzzy date parser
(`dateutil`) is an injected capability, exactly as the source treats it
(`HAVE_DATEUTIL`); the `HAVE_DATEUTIL = False` configuration of the
source, `datetime.strptime(s, "%B %d, %Y")`, is embedded concretely as
`strptimeBD`.
-/

namespace PDFCli

/-- ASCII whitespace, the fragment of Python's `\s` relevant here:
space, tab, newline, carriage return, vertical tab, form feed. -/
def isWs (c : Char) : Bool :=
  c.toNat = 32 || c.toNat = 9 || c.toNat = 10 || c.toNat = 13 ||
    c.toNat = 11 || c.toNat = 12

/-- Regex class `[a-z]`. -/
def isLowerA (c : Char) : Bool := 97 ≤ c.toNat && c.toNat ≤ 122

/-- Regex class `[A-Z]`. -/
def isUpperA (c : Char) : Bool := 65 ≤ c.toNat && c.toNat ≤ 90

/-- Regex class `[A-Za-z]`. -/
def isAlphaA (c : Char) : Bool := isLowerA c || isUpperA c

/-- Regex class `[0-9]` (`\d`, ASCII fragment). -/
def isDigitA (c : Char) : Bool := 48 ≤ c.toNat && c.toNat ≤ 57

/-- Regex class `\w` (ASCII fragment). -/
def isWordA (c : Char) : Bool := isAlphaA c || isDigitA c || c = '_'

/-- ASCII lower-casing, used for the case-insensitive (`re.I`) matchers. -/
def toLowerA (c : Char) : Char :=
  if isUpperA c then Char.ofNat (c.toNat + 32) else c

/-- ASCII upper-casing. -/
def toUpperA (c : Char) : Char :=
  if isLowerA c then Char.ofNat (c.toNat - 32) else c

/-- Split off the maximal leading run of characters satisfying `p`
(run, rest).  This is how every greedy `X*` / `X+` over a character
class is compiled below. -/
def takeRun (p : Char → Bool) : List Char → List Char × List Char
  | [] => ([], [])
  | c :: rest =>
    if p c then
      let (r, t) := takeRun p rest
      (c :: r, t)
    else ([], c :: rest)

/-- Drop the maximal trailing run of characters satisfying `p`. -/
def dropRunEnd (p : Char → Bool) : List Char → List Char
  | [] => []
  | c :: rest =>
    match dropRunEnd p rest with
    | [] => if p c then [] else [c]
    | r => c :: r

/-- Python `str.strip()` (whitespace strip at both ends). -/
def pyStrip (l : List Char) : List Char :=
  dropRunEnd isWs (l.dropWhile isWs)

/-- Python `str.strip(chars)` for an explicit character set. -/
def pyStripSet (p : Char → Bool) (l : List Char) : List Char :=
  dropRunEnd p (l.dropWhile p)

/-- Python `str.split()` (split on whitespace runs, dropping empties);
`acc` holds the current word reversed. -/
def splitWsAux (acc : List Char) : List Char → List (List Char)
  | [] => if acc = [] then [] else [acc.reverse]
  | c :: rest =>
    if isWs c then
      if acc = [] then splitWsAux [] rest
      else acc.reverse :: splitWsAux [] rest
    else splitWsAux (c :: acc) rest

/-- Python `str.split()`. -/
def splitWs (l : List Char) : List (List Char) := splitWsAux [] l

/-- `" ".join(parts)`. -/
def joinSpace : List (List Char) → List Char
  | [] => []
  | [w] => w
  | w :: rest => w ++ ' ' :: joinSpace rest

/-- `"\n".join(pages)`. -/
def joinNL : List (List Char) → List Char
  | [] => []
  | [p] => p
  | p :: rest => p ++ '\n' :: joinNL rest

/-- Python `str.splitlines()` restricted to the line breaks occurring
in this pipeline's inputs (`\n`, `\r`, `\r\n`): a trailing break does
not produce a final empty line.  `acc` is the current line reversed. -/
def splitLinesAux (acc : List Char) : List Char → List (List Char)
  | [] => if acc = [] then [] else [acc.reverse]
  | '\r' :: '\n' :: rest => acc.reverse :: splitLinesAux [] rest
  | '\r' :: rest => acc.reverse :: splitLinesAux [] rest
  | '\n' :: rest => acc.reverse :: splitLinesAux [] rest
  | c :: rest => splitLinesAux (c :: acc) rest

/-- Python `str.splitlines()`. -/
def splitLines (l : List Char) : List (List Char) := splitLinesAux [] l

/-- `WS_RE.sub(" ", s)`: replace every maximal whitespace run by a
single space.  `inRun` records whether the previous character was part
of a whitespace run already rewritten. -/
def wsSubAux : Bool → List Char → List Char
  | _, [] => []
  | inRun, c :: rest =>
    if isWs c then
      if inRun then wsSubAux true rest else ' ' :: wsSubAux true rest
    else c :: wsSubAux false rest

/-- `norm_ws(s) = WS_RE.sub(" ", s).strip()`. -/
def norm_ws (s : List Char) : List Char := pyStrip (wsSubAux false s)

/-- `re.sub` for a two-character pattern `(X)(Y)` with replacement
`\1 \2`: scanning is left to right and non-overlapping, and after a
match the scan resumes after the second character — which is faithful
to CPython because for all three desquash rules the `Y` class is
disjoint from the `X` class, so the skipped character can never start
a new match. -/
def reSub2 (P : Char → Char → Bool) : List Char → List Char
  | a :: b :: rest =>
    if P a b then a :: ' ' :: b :: reSub2 P rest
    else a :: reSub2 P (b :: rest)
  | l => l

/-- `CAMEL_GAP_RE`: lowercase letter followed by uppercase letter. -/
def gapLU (a b : Char) : Bool := isLowerA a && isUpperA b

/-- `LETTER_DIGIT_GAP_RE`: letter followed by digit. -/
def gapLD (a b : Char) : Bool := isAlphaA a && isDigitA b

/-- `DIGIT_LETTER_GAP_RE`: digit followed by letter. -/
def gapDL (a b : Char) : Bool := isDigitA a && isAlphaA b

/-- `desquash`: insert missing spaces at case/digit boundaries, the
three substitutions applied in source order; the empty string is
returned unchanged (the source's `if not s` guard). -/
def desquash (s : List Char) : List Char :=
  if s = [] then []
  else reSub2 gapDL (reSub2 gapLD (reSub2 gapLU s))

/-- `int(s)` on a digit string. -/
def natOfDigits (l : List Char) : Nat :=
  l.foldl (fun acc c => acc * 10 + (c.toNat - 48)) 0

/-- Case-insensitive (ASCII) literal match: if `needle` is a prefix of
`hay` up to case, return the rest of `hay`. -/
def matchCI : List Char → List Char → Option (List Char)
  | [], hay => some hay
  | _, [] => none
  | n :: ns, h :: hs =>
    if toLowerA n = toLowerA h then matchCI ns hs else none

/-- Case-insensitive substring test (used for `TITLE_RE.search`). -/
def hasSubCI (needle : List Char) : List Char → Bool
  | [] => (matchCI needle []).isSome
  | c :: rest => (matchCI needle (c :: rest)).isSome || hasSubCI needle rest

/-- Python `str.isupper()`, ASCII fragment: at least one cased (letter)
character and no lowercase one. -/
def pyIsUpper (l : List Char) : Bool :=
  l.any isAlphaA && l.all (fun c => !isLowerA c)

/-- Python `str.title()`, ASCII fragment: a letter following a
non-letter is upper-cased, a letter following a letter is lower-cased.
`prev` records whether the previous character was a letter. -/
def pyTitleAux : Bool → List Char → List Char
  | _, [] => []
  | prev, c :: rest =>
    if isAlphaA c then
      (if prev then toLowerA c else toUpperA c) :: pyTitleAux true rest
    else c :: pyTitleAux false rest

/-- Python `str.title()`. -/
def pyTitle (l : List Char) : List Char := pyTitleAux false l

/-- `protect_times` scanner for `TIME_DOT_RE = \b(\d{1,2})\.(\d{2})\b`,
substituting `\1:\2`.  `prev` is the character before the current
position (for the word boundary), fuel bounds the scan.  The greedy
`\d{1,2}` tries two digits before one, exactly as the regex engine. -/
def ptAux : Nat → Option Char → List Char → List Char
  | 0, _, l => l
  | fuel + 1, prev, l =>
    let boundary : Bool := prev.elim true (fun c => !isWordA c)
    match l with
    | [] => []
    | d1 :: d2 :: '.' :: d3 :: d4 :: rest =>
      if boundary && isDigitA d1 && isDigitA d2 && isDigitA d3 && isDigitA d4 &&
          (rest.head?.elim true (fun c => !isWordA c)) then
        d1 :: d2 :: ':' :: d3 :: d4 :: ptAux fuel (some d4) rest
      else
        -- the backtracked one-digit alternative needs '.' directly after
        -- d1, impossible in this shape, so the scan just advances
        d1 :: ptAux fuel (some d1) (d2 :: '.' :: d3 :: d4 :: rest)
    | d1 :: '.' :: d3 :: d4 :: rest =>
      if boundary && isDigitA d1 && isDigitA d3 && isDigitA d4 &&
          (rest.head?.elim true (fun c => !isWordA c)) then
        d1 :: ':' :: d3 :: d4 :: ptAux fuel (some d4) rest
      else d1 :: ptAux fuel (some d1) ('.' :: d3 :: d4 :: rest)
    | c :: rest => c :: ptAux fuel (some c) rest

/-- `protect_times(s)`. -/
def protect_times (s : List Char) : List Char := ptAux (s.length + 1) none s

/-- `am` / `pm` optional tail of `TIME_LIKE_RE` (with its optional
single whitespace), case-insensitive. -/
def ampmTail : List Char → Bool
  | [] => true
  | [a, m] => (toLowerA a = 'a' || toLowerA a = 'p') && toLowerA m = 'm'
  | [w, a, m] =>
    isWs w && (toLowerA a = 'a' || toLowerA a = 'p') && toLowerA m = 'm'
  | _ => false

/-- `TIME_LIKE_RE = ^(?:\d{1,2}[:\.]\d{2})(?:\s?(?:am|pm))?$` (re.I):
the greedy `\d{1,2}` tries two digits first. -/
def looks_like_time_token (s : List Char) : Bool :=
  match s with
  | d1 :: d2 :: sep :: d3 :: d4 :: rest =>
    if isDigitA d1 && isDigitA d2 && (sep = ':' || sep = '.') &&
        isDigitA d3 && isDigitA d4 then ampmTail rest
    else
      match s with
      | e1 :: sep2 :: e3 :: e4 :: rest2 =>
        isDigitA e1 && (sep2 = ':' || sep2 = '.') && isDigitA e3 &&
          isDigitA e4 && ampmTail rest2
      | _ => false
  | d1 :: sep :: d3 :: d4 :: rest =>
    isDigitA d1 && (sep = ':' || sep = '.') && isDigitA d3 && isDigitA d4 &&
      ampmTail rest
  | _ => false

/-- The delimiter class `[\.\)\-–—]` of `SEC_RE`. -/
def isSecDelim (c : Char) : Bool :=
  c = '.' || c = ')' || c = '-' || c = '–' || c = '—'

/-- Roman-numeral class `[IVX]` under `re.I`. -/
def isRomanCI (c : Char) : Bool :=
  toLowerA c = 'i' || toLowerA c = 'v' || toLowerA c = 'x'

/-- The `(?:\.\d+)*` extension of `SEC_RE`'s numeric group: greedily
absorb further `.digits` chunks. -/
def numGroupExt : Nat → List Char → List Char → List Char × List Char
  | 0, acc, l => (acc, l)
  | fuel + 1, acc, l =>
    match l with
    | '.' :: rest =>
      let (ds, r2) := takeRun isDigitA rest
      if ds = [] then (acc, l) else numGroupExt fuel (acc ++ '.' :: ds) r2
    | _ => (acc, l)

/-- The `\s*[\.\)\-–—]?\s+(.+)$` tail of `SEC_RE` after group 1,
compiled with the engine's backtracking order: first try
maximal-whitespace + delimiter + `\s+` + nonempty title, then fall back
to treating the whitespace run itself as the `\s+` (delimiter empty). -/
def secTail (u : List Char) : Option (List Char) :=
  let (ws1, u1) := takeRun isWs u
  match u1 with
  | d :: u2 =>
    if isSecDelim d then
      let (ws2, u3) := takeRun isWs u2
      if ws2 ≠ [] ∧ u3 ≠ [] then some u3
      else if ws1 ≠ [] then some u1
      else none
    else if ws1 ≠ [] then some u1
    else none
  | [] => none

/-- The numeral-or-roman group of `SEC_RE` followed by `secTail`.
Maximal-munch is faithful: a shorter group leaves a class character at
the tail position, which can match neither `\s` nor a delimiter. -/
def secCore : List Char → Option (List Char × List Char)
  | [] => none
  | c :: rest =>
    if isDigitA c then
      let (ds, r) := takeRun isDigitA (c :: rest)
      let (g, r2) := numGroupExt (r.length + 1) ds r
      (secTail r2).map (fun t => (g, t))
    else if isRomanCI c then
      let (rs, r) := takeRun isRomanCI (c :: rest)
      (secTail r).map (fun t => (rs, t))
    else none

/-- `SEC_RE.match(line)` returning `(group 1, group 2)`: the optional
case-insensitive `Section`/`Article` prefix is tried first, and on
failure the engine backtracks to the empty prefix. -/
def secMatch (line : List Char) : Option (List Char × List Char) :=
  let noPre : Option (List Char × List Char) :=
    let (_, r) := takeRun isWs line
    secCore r
  let pre : Option (List Char) :=
    match matchCI ("section".data) line with
    | some r => some r
    | none => matchCI ("article".data) line
  match pre with
  | some r =>
    let (_, r2) := takeRun isWs r
    match secCore r2 with
    | some nt => some nt
    | none => noPre
  | none => noPre

/-- Character class of `SEC_ALLCAPS_RE = ^[A-Z0-9 \-&,]{3,}$`. -/
def allcapsClass (c : Char) : Bool :=
  isUpperA c || isDigitA c || c = ' ' || c = '-' || c = '&' || c = ','

/-- `SEC_ALLCAPS_RE.match(line)` as a Boolean. -/
def sec_allcaps (l : List Char) : Bool :=
  3 ≤ l.length && l.all allcapsClass

/-- One word of `TITLE_CASE_HEADING_RE`: `[A-Z][a-z]+`. -/
def titleWord : List Char → Bool
  | [] => false
  | c :: rest => isUpperA c && !rest.isEmpty && rest.all isLowerA

/-- `TITLE_CASE_HEADING_RE = ^(?:[A-Z][a-z]+(?:\s+[A-Z][a-z]+){0,6})$`:
no leading or trailing whitespace, and 1–7 title-case words separated
by whitespace runs. -/
def title_case_heading (l : List Char) : Bool :=
  match l.head?, l.reverse.head? with
  | some a, some b =>
    !isWs a && !isWs b &&
      (let ws := splitWs l
       !ws.isEmpty && ws.length ≤ 7 && ws.all titleWord)
  | _, _ => false

/-- The `COMMON_SENTENCE_STARTS` set. -/
def startWords : List (List Char) :=
  ["The", "This", "These", "Those", "A", "An", "In", "On", "At", "For",
    "From", "If", "Upon", "Whereas"].map String.data

/-- `t.endswith(".")`. -/
def endsDot (l : List Char) : Bool :=
  match l.reverse with
  | '.' :: _ => true
  | [] => false
  | _ :: _ => false

/-- `words[0][0].islower()` on a word list. -/
def firstCharLower : List (List Char) → Bool
  | (c :: _) :: _ => isLowerA c
  | _ => false

/-- `words[0] in COMMON_SENTENCE_STARTS` on a word list. -/
def firstWordStart : List (List Char) → Bool
  | w :: _ => startWords.contains w
  | [] => false

/-- `likely_heading(number, title)`, with the source's checks in
source order (`t = title.strip()`, `words = t.split()` are inlined). -/
def likely_heading (number title : List Char) : Bool :=
  if looks_like_time_token number then false
  else if title.isEmpty then false
  else if endsDot (pyStrip title) then false
  else if 120 < (pyStrip title).length then false
  else if (splitWs (pyStrip title)).isEmpty then false
  else if firstCharLower (splitWs (pyStrip title)) then false
  else if 14 < (splitWs (pyStrip title)).length &&
      !((pyStrip title).any (fun c => c = ':')) then false
  else if (!number.isEmpty && number.all isDigitA) &&
      (30 ≤ natOfDigits number &&
        firstWordStart (splitWs (pyStrip title))) then false
  else if (splitWs (pyStrip title)).length ≤ 12 then true
  else if sec_allcaps (pyStrip title) &&
      (splitWs (pyStrip title)).length ≤ 16 then true
  else false

/-- The per-line heading decision of `parse_sections` (lines 305–325):
shape 1 (`SEC_RE` + `likely_heading`, with its number), falling through
to shape 2 (`SEC_ALLCAPS_RE`, ≤ 12 words, title-cased when upper) and
shape 3 (`TITLE_CASE_HEADING_RE`, ≤ 7 words); `none` means the line is
body text. -/
def headingOf (line : List Char) : Option (Option (List Char) × List Char) :=
  let fallback : Option (Option (List Char) × List Char) :=
    if sec_allcaps line && (splitWs line).length ≤ 12 then
      some (none, if pyIsUpper line then pyTitle line else line)
    else if title_case_heading line && (splitWs line).length ≤ 7 then
      some (none, line)
    else none
  match secMatch line with
  | some (num, ttl) =>
    if likely_heading num ttl then some (some num, ttl) else fallback
  | none => fallback

/-- The `Clause` dataclass. -/
structure Clause where
  text : List Char
  label : List Char
  index : Nat
deriving DecidableEq

/-- The `Section` dataclass. -/
structure Section where
  title : List Char
  number : Option (List Char)
  clauses : List Clause
deriving DecidableEq

/-- `CLAUSE_RE[0] = ^\(([a-z])\)\s+(.*)$`. -/
def clausePat1 : List Char → Option (List Char × List Char)
  | '(' :: c :: ')' :: rest =>
    if isLowerA c then
      let (ws, r) := takeRun isWs rest
      if ws ≠ [] then some ([c], r) else none
    else none
  | _ => none

/-- `CLAUSE_RE[1] = ^\(([A-Z])\)\s+(.*)$`. -/
def clausePat2 : List Char → Option (List Char × List Char)
  | '(' :: c :: ')' :: rest =>
    if isUpperA c then
      let (ws, r) := takeRun isWs rest
      if ws ≠ [] then some ([c], r) else none
    else none
  | _ => none

/-- `CLAUSE_RE[2] = ^\(([ivx]+)\)\s+(.*)$` (re.I). -/
def clausePat3 : List Char → Option (List Char × List Char)
  | '(' :: rest =>
    let (rs, r) := takeRun isRomanCI rest
    (match r with
     | ')' :: r2 =>
       if rs ≠ [] then
         let (ws, r3) := takeRun isWs r2
         if ws ≠ [] then some (rs, r3) else none
       else none
     | _ => none)
  | _ => none

/-- `CLAUSE_RE[3] = ^([a-z])\.\s+(.*)$`. -/
def clausePat4 : List Char → Option (List Char × List Char)
  | c :: '.' :: rest =>
    if isLowerA c then
      let (ws, r) := takeRun isWs rest
      if ws ≠ [] then some ([c], r) else none
    else none
  | _ => none

/-- `CLAUSE_RE[4] = ^([A-Z])\.\s+(.*)$`. -/
def clausePat5 : List Char → Option (List Char × List Char)
  | c :: '.' :: rest =>
    if isUpperA c then
      let (ws, r) := takeRun isWs rest
      if ws ≠ [] then some ([c], r) else none
    else none
  | _ => none

/-- `CLAUSE_RE[5] = ^([ivx]+)\.\s+(.*)$` (re.I): maximal roman run
then the dot (a shorter run would leave a roman letter, not a dot). -/
def clausePat6 (l : List Char) : Option (List Char × List Char) :=
  let (rs, r) := takeRun isRomanCI l
  if rs = [] then none
  else
    match r with
    | '.' :: r2 =>
      let (ws, r3) := takeRun isWs r2
      if ws ≠ [] then some (rs, r3) else none
    | _ => none

/-- `CLAUSE_RE[6] = ^(\d+(?:\.\d+)+)\s+(.*)$` (at least one dotted
group). -/
def clausePat7 (l : List Char) : Option (List Char × List Char) :=
  let (ds, r) := takeRun isDigitA l
  if ds = [] then none
  else
    let (g, r2) := numGroupExt (r.length + 1) ds r
    if g.length = ds.length then none
    else
      let (ws, r3) := takeRun isWs r2
      if ws ≠ [] then some (g, r3) else none

/-- `CLAUSE_RE[7] = ^(\d+)[\.\)]\s+(.*)$`. -/
def clausePat8 (l : List Char) : Option (List Char × List Char) :=
  let (ds, r) := takeRun isDigitA l
  if ds = [] then none
  else
    match r with
    | c :: r2 =>
      if c = '.' || c = ')' then
        let (ws, r3) := takeRun isWs r2
        if ws ≠ [] then some (ds, r3) else none
      else none
    | [] => none

/-- `CLAUSE_RE[8] = ^([A-Z][A-Z ]{2,})[:\-]\s*(.*)$`: maximal
`[A-Z ]` run after the initial capital (the delimiters are outside the
class, so maximal munch is faithful), run length at least 2. -/
def clausePat9 : List Char → Option (List Char × List Char)
  | c :: rest =>
    if isUpperA c then
      let (run, r) := takeRun (fun d => isUpperA d || d = ' ') rest
      if 2 ≤ run.length then
        match r with
        | d :: r2 =>
          if d = ':' || d = '-' then
            let (_, r3) := takeRun isWs r2
            some (c :: run, r3)
          else none
        | [] => none
      else none
    else none
  | [] => none

/-- The ordered `CLAUSE_RE` list, first match wins. -/
def clauseMatch (l : List Char) : Option (List Char × List Char) :=
  clausePat1 l <|> clausePat2 l <|> clausePat3 l <|> clausePat4 l <|>
    clausePat5 l <|> clausePat6 l <|> clausePat7 l <|> clausePat8 l <|>
    clausePat9 l

/-- `flush_clause()` of `segment_clauses`: emit the accumulated clause
when its parts are nonempty, with provisional index `len(clauses)`. -/
def flushClause (label : List Char) (parts : List (List Char))
    (clauses : List Clause) : List Clause :=
  if parts = [] then clauses
  else clauses ++ [⟨norm_ws (joinSpace parts), label, clauses.length⟩]

/-- The line loop of `segment_clauses`. -/
def segLoop : List Char → List (List Char) → List Clause →
    List (List Char) → List Clause
  | label, parts, clauses, [] => flushClause label parts clauses
  | label, parts, clauses, l :: rest =>
    match clauseMatch l with
    | some (g1, g2) =>
      segLoop (norm_ws g1) (if g2 = [] then [] else [norm_ws g2])
        (flushClause label parts clauses) rest
    | none => segLoop label (parts ++ [l]) clauses rest

/-- The final schema pass of `segment_clauses`: reassign dense indices
(and re-normalize the text, as the source does). -/
def reindexFrom : Nat → List Clause → List Clause
  | _, [] => []
  | i, c :: rest => ⟨norm_ws c.text, c.label, i⟩ :: reindexFrom (i + 1) rest

/-- `segment_clauses(lines)`. -/
def segment_clauses (lines : List (List Char)) : List Clause :=
  reindexFrom 0 (segLoop [] [] [] lines)

/-- One enumerator token of `INLINE_BULLET_SPLIT_RE` at the current
position: the three alternatives in engine order, followed by `\s+`;
returns the captured label and the total consumed length. -/
def inlineTokenAt (l : List Char) : Option (List Char × Nat) :=
  let alt : Option (List Char × List Char) :=
    match l with
    | '(' :: rest =>
      let (ls, r) := takeRun isAlphaA rest
      (match r with
       | ')' :: r2 =>
         if ls = [] then none else some ('(' :: ls ++ [')'], r2)
       | _ => none)
    | _ =>
      let (ls, r) := takeRun isAlphaA l
      if ls ≠ [] then
        match r with
        | c :: r2 => if c = '.' || c = ')' then some (ls ++ [c], r2) else none
        | [] => none
      else
        let (ds, r2) := takeRun isDigitA l
        if ds ≠ [] then
          match r2 with
          | c :: r3 => if c = '.' || c = ')' then some (ds ++ [c], r3) else none
          | [] => none
        else none
  match alt with
  | some (g, r) =>
    let (ws, _) := takeRun isWs r
    if ws = [] then none else some (g, g.length + ws.length)
  | none => none

/-- The lookbehind `(?:(?<=^)|(?<=[;:]\s))`: position 0 or preceded by
a semicolon/colon plus one whitespace character. -/
def lookbehindOk (line : List Char) (pos : Nat) : Bool :=
  pos = 0 ||
    (2 ≤ pos &&
      (match line.drop (pos - 2) with
       | a :: b :: _ => (a = ';' || a = ':') && isWs b
       | _ => false))

/-- `finditer` for `INLINE_BULLET_SPLIT_RE`: left-to-right,
non-overlapping, resuming after each match; yields
(start, end, label). -/
def findInlineAux (line : List Char) : Nat → Nat → List (Nat × Nat × List Char)
  | 0, _ => []
  | fuel + 1, pos =>
    if lookbehindOk line pos then
      match inlineTokenAt (line.drop pos) with
      | some (g, k) => (pos, pos + k, g) :: findInlineAux line fuel (pos + k)
      | none => findInlineAux line fuel (pos + 1)
    else findInlineAux line fuel (pos + 1)

/-- All inline-bullet token matches of a line. -/
def findInline (line : List Char) : List (Nat × Nat × List Char) :=
  findInlineAux line (line.length + 1) 0

/-- The punctuation set of `first_word.strip("“”\"'()[]{}.,;:")`. -/
def labelStripSet (c : Char) : Bool :=
  c = '“' || c = '”' || c = '\x22' || c = Char.ofNat 39 || c = '(' ||
    c = ')' || c = '[' || c = ']' || c = '\x7b' || c = '\x7d' ||
    c = '.' || c = ',' || c = ';' || c = ':'

/-- The per-token fragment builder of `explode_inline_bullets`:
`"<label> <body>"` with the body running to the next token's start,
whitespace-normalized, empty bodies dropped. -/
def fragmentsOf (line : List Char) : List (Nat × Nat × List Char) → List (List Char)
  | [] => []
  | (_, e, lbl) :: rest =>
    let stop := match rest with
      | (s2, _, _) :: _ => s2
      | [] => line.length
    let body := norm_ws ((line.take stop).drop e)
    (if body = [] then [] else [lbl ++ ' ' :: body]) ++ fragmentsOf line rest

/-- `explode_inline_bullets(line)`. -/
def explode_inline_bullets (line : List Char) : List (List Char) :=
  match findInline line with
  | [] => [line]
  | (s0, e0, lbl) :: toks =>
    let abandon : Bool :=
      s0 = 0 &&
        (!lbl.dropLast.isEmpty && lbl.dropLast.all isDigitA) &&
        (let body := (line.drop e0).dropWhile isWs
         let fw := match splitWs body with
           | [] => ([] : List Char)
           | w :: _ => w
         startWords.contains (pyStripSet labelStripSet fw))
    if abandon then [line]
    else
      let pre := norm_ws (line.take s0)
      (if pre = [] then [] else [pre]) ++
        fragmentsOf line ((s0, e0, lbl) :: toks)

/-- The mutable state of `parse_sections`. -/
structure PSState where
  sections : List Section
  curTitle : Option (List Char)
  curNum : Option (List Char)
  curBody : List (List Char)

/-- The `flush()` closure of `parse_sections`: emit the accumulated
section (exploding and segmenting its body) only when a title is set,
then reset all accumulators. -/
def flushSec (st : PSState) : PSState :=
  match st.curTitle with
  | none => ⟨st.sections, none, none, []⟩
  | some t =>
    ⟨st.sections ++
        [⟨norm_ws t, st.curNum,
          segment_clauses ((st.curBody.map explode_inline_bullets).flatten)⟩],
      none, none, []⟩

/-- One iteration of the `parse_sections` line loop. -/
def stepLine (st : PSState) (line : List Char) : PSState :=
  match headingOf line with
  | some (num, ttl) => ⟨(flushSec st).sections, some ttl, num, []⟩
  | none =>
    ⟨st.sections,
      (match st.curTitle with
       | none => some ("Preamble".data)
       | some t => some t),
      st.curNum, st.curBody ++ [line]⟩

/-- The `parse_sections` loop with final flush. -/
def secGo : PSState → List (List Char) → List Section
  | st, [] => (flushSec st).sections
  | st, l :: rest => secGo (stepLine st l) rest

/-- The line pre-processing of `parse_sections` (lines 287–288):
normalize and desquash each physical line, drop empties, then protect
clock times. -/
def rawLines (pages : List (List Char)) : List (List Char) :=
  (((pages.flatMap splitLines).map (fun l => norm_ws (desquash l))).filter
      (fun l => !l.isEmpty)).map protect_times

/-- `parse_sections(pages)`. -/
def parse_sections (pages : List (List Char)) : List Section :=
  secGo ⟨[], none, none, []⟩ (rawLines pages)

/-- A Python `datetime` date (the only fields this program uses). -/
structure PyDate where
  year : Nat
  month : Nat
  day : Nat
deriving DecidableEq

/-- Days in a month under the Gregorian leap rule (what
`datetime`'s constructor enforces). -/
def daysInMonth (y m : Nat) : Nat :=
  if m = 2 then
    if (y % 4 = 0 && y % 100 ≠ 0) || y % 400 = 0 then 29 else 28
  else if m = 4 || m = 6 || m = 9 || m = 11 then 30
  else 31

/-- The validity invariant of a Python `datetime` date. -/
def PyDate.valid (d : PyDate) : Bool :=
  1 ≤ d.year && d.year ≤ 9999 && 1 ≤ d.month && d.month ≤ 12 &&
    1 ≤ d.day && d.day ≤ daysInMonth d.year d.month

/-- Decimal digit character. -/
def digitChar : Nat → Char
  | 0 => '0' | 1 => '1' | 2 => '2' | 3 => '3' | 4 => '4'
  | 5 => '5' | 6 => '6' | 7 => '7' | 8 => '8' | _ => '9'

/-- Zero-padded two-digit field (`%m`, `%d`). -/
def pad2 (n : Nat) : List Char := [digitChar (n / 10 % 10), digitChar (n % 10)]

/-- Zero-padded four-digit year (`%Y`; zero padding models the
common-platform behaviour, and every date reachable here has a
four-digit year read from the text anyway). -/
def pad4 (n : Nat) : List Char :=
  [digitChar (n / 1000 % 10), digitChar (n / 100 % 10),
    digitChar (n / 10 % 10), digitChar (n % 10)]

/-- `dt.strftime("%Y-%m-%d")`. -/
def formatISO (d : PyDate) : List Char :=
  pad4 d.year ++ '-' :: pad2 d.month ++ '-' :: pad2 d.day

/-- The full month names of `%B`, with their numbers. -/
def monthNames : List (List Char × Nat) :=
  [("january", 1), ("february", 2), ("march", 3), ("april", 4),
    ("may", 5), ("june", 6), ("july", 7), ("august", 8),
    ("september", 9), ("october", 10), ("november", 11),
    ("december", 12)].map (fun p => (p.1.data, p.2))

/-- Case-insensitive month-name match at the head of the string (no
full month name is a prefix of another, so first-fit is faithful). -/
def matchMonth (l : List Char) : Option (Nat × List Char) :=
  (monthNames.filterMap (fun p => (matchCI p.1 l).map (fun r => (p.2, r)))).head?

/-- The `%d` day field of `_strptime`:
`3[01] | [12]\d | 0[1-9] | [1-9]`, alternatives in that order. -/
def matchDay : List Char → Option (Nat × List Char)
  | c1 :: c2 :: rest =>
    if c1 = '3' && (c2 = '0' || c2 = '1') then
      some (30 + (c2.toNat - 48), rest)
    else if (c1 = '1' || c1 = '2') && isDigitA c2 then
      some ((c1.toNat - 48) * 10 + (c2.toNat - 48), rest)
    else if c1 = '0' && isDigitA c2 && c2 ≠ '0' then
      some (c2.toNat - 48, rest)
    else if isDigitA c1 && c1 ≠ '0' then
      some (c1.toNat - 48, c2 :: rest)
    else none
  | [c1] =>
    if isDigitA c1 && c1 ≠ '0' then some (c1.toNat - 48, []) else none
  | [] => none

/-- `datetime.strptime(s, "%B %d, %Y")` followed by the `datetime`
constructor's range checks: month name, whitespace, day, comma,
whitespace, exactly four digits, end of string.  This is the
`HAVE_DATEUTIL = False` configuration of the source's date parsing. -/
def strptimeBD (s : List Char) : Option PyDate :=
  match matchMonth s with
  | none => none
  | some (m, r1) =>
    let (ws1, r2) := takeRun isWs r1
    if ws1 = [] then none
    else
      match matchDay r2 with
      | none => none
      | some (d, r3) =>
        match r3 with
        | ',' :: r4 =>
          let (ws2, r5) := takeRun isWs r4
          if ws2 = [] then none
          else
            match r5 with
            | [y1, y2, y3, y4] =>
              if isDigitA y1 && isDigitA y2 && isDigitA y3 && isDigitA y4 then
                let y := natOfDigits [y1, y2, y3, y4]
                let dt : PyDate := ⟨y, m, d⟩
                if dt.valid then some dt else none
              else none
            | _ => none
        | _ => none

/-- `^\d{4}-\d{2}-\d{2}$` (`re.match` of the except-branch, and the
shape of the ISO capture groups). -/
def isoShape : List Char → Bool
  | [a, b, c, d, e, f, g, h, i, j] =>
    isDigitA a && isDigitA b && isDigitA c && isDigitA d && e = '-' &&
      isDigitA f && isDigitA g && h = '-' && isDigitA i && isDigitA j
  | _ => false

/-- The ISO capture group `(\d{4}-\d{2}-\d{2})` at the head of the
string (fixed-count quantifiers, no backtracking): the captured ten
characters and the rest. -/
def matchISOAt : List Char → Option (List Char × List Char)
  | a :: b :: c :: d :: '-' :: f :: g :: '-' :: i :: j :: rest =>
    if isDigitA a && isDigitA b && isDigitA c && isDigitA d &&
        isDigitA f && isDigitA g && isDigitA i && isDigitA j then
      some ([a, b, c, d, '-', f, g, '-', i, j], rest)
    else none
  | _ => none

/-- The long-form date capture group
`([A-Za-z]{3,9}\s+\d{1,2},\s+\d{4})` at the head of the string.  The
maximal letter run must have length 3–9 (a shorter greedy choice
leaves a letter where `\s` is required), the maximal digit run must
have length 1–2 followed by the comma, and the year is four digits
(further digits may follow; the group simply ends). -/
def matchLongDateAt (s : List Char) : Option (List Char) :=
  let (ls, r1) := takeRun isAlphaA s
  if 3 ≤ ls.length && ls.length ≤ 9 then
    let (ws1, r2) := takeRun isWs r1
    if ws1 = [] then none
    else
      let (ds, r3) := takeRun isDigitA r2
      if ds ≠ [] && ds.length ≤ 2 then
        match r3 with
        | ',' :: r4 =>
          let (ws2, r5) := takeRun isWs r4
          if ws2 = [] then none
          else
            match r5 with
            | y1 :: y2 :: y3 :: y4 :: _ =>
              if isDigitA y1 && isDigitA y2 && isDigitA y3 && isDigitA y4 then
                some (ls ++ ws1 ++ ds ++ ',' :: ws2 ++ [y1, y2, y3, y4])
              else none
            | _ => none
        | _ => none
      else none
  else none

/-- `\b` before a word character at position `pos` of `txt`. -/
def boundaryBefore (txt : List Char) (pos : Nat) : Bool :=
  pos = 0 ||
    (match txt.drop (pos - 1) with
     | c :: _ => !isWordA c
     | [] => true)

/-- A phrase-anchored date pattern
`\b<phrase>\b[: ]*<group>` tried at position `pos`: case-insensitive
phrase, trailing word boundary, maximal `[: ]` run (its class is
disjoint from the group's first character class, so maximal munch is
faithful), then the group matcher. -/
def phrasePatAt (phrase : List Char) (group : List Char → Option (List Char))
    (txt : List Char) (pos : Nat) : Option (List Char) :=
  if boundaryBefore txt pos then
    match matchCI phrase (txt.drop pos) with
    | some r =>
      if (match r with
          | c :: _ => !isWordA c
          | [] => true) then
        let (_, r2) := takeRun (fun c => c = ':' || c = ' ') r
        group r2
      else none
    | none => none
  else none

/-- Scan positions left to right, returning the first match —
`re.search`'s leftmost-match rule. -/
def firstMatchFrom (f : Nat → Option (List Char)) : Nat → Nat → Option (List Char)
  | 0, _ => none
  | fuel + 1, pos =>
    match f pos with
    | some g => some g
    | none => firstMatchFrom f fuel (pos + 1)

/-- `DATE_PATTERNS[0]`. -/
def searchPat1 (txt : List Char) : Option (List Char) :=
  firstMatchFrom (phrasePatAt ("effective date".data) matchLongDateAt txt)
    (txt.length + 1) 0

/-- `DATE_PATTERNS[1]`. -/
def searchPat2 (txt : List Char) : Option (List Char) :=
  firstMatchFrom (phrasePatAt ("effective as of".data) matchLongDateAt txt)
    (txt.length + 1) 0

/-- The `made (?:and entered )?as of` phrase at `pos` (the optional
part is tried first; its first characters differ from `as of`'s, so
the two alternatives are mutually exclusive and no backtracking across
the group is needed), then `\b[: ]*` and the long date group. -/
def pat3At (txt : List Char) (pos : Nat) : Option (List Char) :=
  if boundaryBefore txt pos then
    match matchCI ("made ".data) (txt.drop pos) with
    | some r =>
      let r1 := match matchCI ("and entered ".data) r with
        | some r' => r'
        | none => r
      match matchCI ("as of".data) r1 with
      | some r2 =>
        if (match r2 with
            | c :: _ => !isWordA c
            | [] => true) then
          let (_, r3) := takeRun (fun c => c = ':' || c = ' ') r2
          matchLongDateAt r3
        else none
      | none => none
    | none => none
  else none

/-- `DATE_PATTERNS[2]`. -/
def searchPat3 (txt : List Char) : Option (List Char) :=
  firstMatchFrom (pat3At txt) (txt.length + 1) 0

/-- `DATE_PATTERNS[3]`. -/
def searchPat4 (txt : List Char) : Option (List Char) :=
  firstMatchFrom (phrasePatAt ("dated".data) matchLongDateAt txt)
    (txt.length + 1) 0

/-- `DATE_PATTERNS[4]`. -/
def searchPat5 (txt : List Char) : Option (List Char) :=
  firstMatchFrom (phrasePatAt ("agreement date".data) matchLongDateAt txt)
    (txt.length + 1) 0

/-- `DATE_PATTERNS[5]`. -/
def searchPat6 (txt : List Char) : Option (List Char) :=
  firstMatchFrom
    (phrasePatAt ("agreement date".data)
      (fun s => (matchISOAt s).map Prod.fst) txt)
    (txt.length + 1) 0

/-- `DATE_PATTERNS[6]`. -/
def searchPat7 (txt : List Char) : Option (List Char) :=
  firstMatchFrom
    (phrasePatAt ("effective date".data)
      (fun s => (matchISOAt s).map Prod.fst) txt)
    (txt.length + 1) 0

/-- `DATE_PATTERNS[7] = \b(\d{4}-\d{2}-\d{2})\b`. -/
def searchPat8 (txt : List Char) : Option (List Char) :=
  firstMatchFrom
    (fun pos =>
      if boundaryBefore txt pos then
        match matchISOAt (txt.drop pos) with
        | some (g, rest) =>
          if (match rest with
              | c :: _ => !isWordA c
              | [] => true) then some g
          else none
        | none => none
      else none)
    (txt.length + 1) 0

/-- The ordered `DATE_PATTERNS` list. -/
def DATE_PATTERNS : List (List Char → Option (List Char)) :=
  [searchPat1, searchPat2, searchPat3, searchPat4, searchPat5,
    searchPat6, searchPat7, searchPat8]

/-- The pattern loop of `find_effective_date`: first matching pattern;
on parse success return the formatted date, on parse failure return
the raw string when it is ISO-shaped, otherwise try the next
pattern. -/
def tryPatterns (parse : List Char → Option PyDate) (txt : List Char) :
    List (List Char → Option (List Char)) → Option (List Char)
  | [] => none
  | p :: rest =>
    match p txt with
    | none => tryPatterns parse txt rest
    | some g =>
      let ds := pyStrip g
      match parse ds with
      | some d => some (formatISO d)
      | none =>
        if isoShape ds then some ds else tryPatterns parse txt rest

/-- `find_effective_date(all_text)` with the date parser injected
(`parse = strptimeBD` is the `HAVE_DATEUTIL = False` configuration;
`dateutil`'s fuzzy parser is any other function of this type). -/
def find_effective_date (parse : List Char → Option PyDate)
    (all_text : List Char) : Option (List Char) :=
  tryPatterns parse (' ' :: all_text ++ [' ']) DATE_PATTERNS

/-- The `TITLE_RE` keywords. -/
def titleKeywords : List (List Char) :=
  ["agreement", "contract", "nda", "amendment", "statement of work",
    "license", "lease"].map String.data

/-- `TITLE_RE.search(line)` (case-insensitive substring). -/
def titleSearch (line : List Char) : Bool :=
  titleKeywords.any (fun k => hasSubCI k line)

/-- `PurePath.stem` for a plain file name: the name without its last
suffix (a leading dot or a dot in last position is not a suffix). -/
def lastDotAux : Nat → Option Nat → List Char → Option Nat
  | _, best, [] => best
  | i, best, c :: rest =>
    lastDotAux (i + 1) (if c = '.' then some i else best) rest

/-- Position of the last dot, if any. -/
def lastDotPos (l : List Char) : Option Nat := lastDotAux 0 none l

/-- `Path(filename).stem`. -/
def stemOf (name : List Char) : List Char :=
  match lastDotPos name with
  | some i => if 0 < i && i + 1 < name.length then name.take i else name
  | none => name

/-- `.replace("_", " ").replace("-", " ")`. -/
def sepToSpace (l : List Char) : List Char :=
  l.map (fun c => if c = '_' || c = '-' then ' ' else c)

/-- `guess_title(pages, filename)`. -/
def guess_title (pages : List (List Char)) (fname : List Char) :
    List Char × List Char :=
  let first := match pages with
    | [] => []
    | p :: _ => splitLines p
  match first.find? titleSearch with
  | some l => (norm_ws l, "Agreement".data)
  | none => (pyTitle (sepToSpace (stemOf fname)), "Agreement".data)

/-- The Document Result (the JSON object built by `parse_contract`,
minus the out-of-scope PDF extraction). -/
structure DocResult where
  title : List Char
  contract_type : List Char
  effective_date : Option (List Char)
  sections : List Section
deriving DecidableEq

/-- The `"number": s.number if s.number else None` coercion of the
JSON serialisation (an empty-string number becomes `none`). -/
def fixNumber (s : Section) : Section :=
  ⟨s.title,
    (match s.number with
     | some n => if n = [] then none else some n
     | none => none),
    s.clauses⟩

/-- The core of `parse_contract` over already-extracted page text:
title/type guess, effective date, section tree, serialised with the
same null coercions as the source's JSON construction. -/
def parse_contract_core (parse : List Char → Option PyDate)
    (pages : List (List Char)) (fname : List Char) : DocResult :=
  let tc := guess_title pages fname
  let edate := find_effective_date parse (joinNL pages)
  ⟨tc.1, tc.2,
    (match edate with
     | some d => if d = [] then none else some d
     | none => none),
    (parse_sections pages).map fixNumber⟩

/-! ### Predicates used by the verification (invariants and the
claim-side reference definitions). -/

/-- No two adjacent characters satisfy `P`. -/
def noPair (P : Char → Char → Bool) : List Char → Bool
  | a :: b :: rest => !P a b && noPair P (b :: rest)
  | _ => true

/-- Two adjacent whitespace characters. -/
def wsPair (a b : Char) : Bool := isWs a && isWs b

/-- Every whitespace character is a plain space. -/
def onlySpace (l : List Char) : Bool :=
  l.all (fun c => !isWs c || c = ' ')

/-- The first character, if any, is not whitespace. -/
def headOkWs : List Char → Bool
  | [] => true
  | c :: _ => !isWs c

/-- The last character, if any, is not whitespace. -/
def lastOkWs : List Char → Bool
  | [] => true
  | [c] => !isWs c
  | _ :: rest => lastOkWs rest

/-- Case-sensitive literal list match at the head. -/
def startsWithL : List Char → List Char → Bool
  | [], _ => true
  | _ :: _, [] => false
  | n :: ns, h :: hs => n = h && startsWithL ns hs

/-- Case-sensitive substring test (used to state that a text
"contains" a phrase, as the claims do). -/
def hasSub (needle : List Char) : List Char → Bool
  | [] => startsWithL needle []
  | c :: rest => startsWithL needle (c :: rest) || hasSub needle rest

/-- Whether `SEC_RE` + `likely_heading` (heading shape 1) accepts the
line. -/
def secAccepts (line : List Char) : Bool :=
  match secMatch line with
  | some (num, ttl) => likely_heading num ttl
  | none => false

/-- Claim-side reference definition (C1's words): a syntactically
valid ISO-8601 calendar date string `YYYY-MM-DD` denoting a real
calendar date — month 01–12 and a day valid for that month. -/
def isRealISODate : List Char → Bool
  | [a, b, c, d, e, f, g, h, i, j] =>
    isDigitA a && isDigitA b && isDigitA c && isDigitA d && e = '-' &&
      isDigitA f && isDigitA g && h = '-' && isDigitA i && isDigitA j &&
      (let y := natOfDigits [a, b, c, d]
       let mo := natOfDigits [f, g]
       let dy := natOfDigits [i, j]
       1 ≤ mo && mo ≤ 12 && 1 ≤ dy && dy ≤ daysInMonth y mo)
  | _ => false

/-- Claim-side reference definition (C3's words): accept when the
title is at most 12 words, or at most 16 words and fully upper-case,
provided none of the claim's listed rejections applies (clock-time
number; empty title; title ending in a period; title over
120 characters; more than 14 words without a colon; numeric number at
least 30 with a common sentence-opening first word). -/
def claimHeadingAccepts (number title : List Char) : Bool :=
  !looks_like_time_token number && !title.isEmpty && !endsDot title &&
    !(120 < title.length) &&
    !(14 < (splitWs title).length && !(title.any (fun c => c = ':'))) &&
    !((!number.isEmpty && number.all isDigitA) &&
      (30 ≤ natOfDigits number && firstWordStart (splitWs title))) &&
    ((splitWs title).length ≤ 12 ||
      (pyIsUpper title && (splitWs title).length ≤ 16))

/-- The amended C3 characterization: the source's acceptance region of
`likely_heading`, written as one flat condition over the stripped
title — the claim's list of rejections extended with the
lowercase-first-letter rejection, and "fully upper-case" replaced by
the `SEC_ALLCAPS_RE` character class. -/
def headingAccepts (number title : List Char) : Bool :=
  !looks_like_time_token number && !title.isEmpty &&
    !endsDot (pyStrip title) && !(120 < (pyStrip title).length) &&
    !(splitWs (pyStrip title)).isEmpty &&
    !firstCharLower (splitWs (pyStrip title)) &&
    !(14 < (splitWs (pyStrip title)).length &&
      !((pyStrip title).any (fun c => c = ':'))) &&
    !((!number.isEmpty && number.all isDigitA) &&
      (30 ≤ natOfDigits number &&
        firstWordStart (splitWs (pyStrip title)))) &&
    ((splitWs (pyStrip title)).length ≤ 12 ||
      (sec_allcaps (pyStrip title) &&
        (splitWs (pyStrip title)).length ≤ 16))

/-! ### Concrete inputs used by witnesses and counterexamples. -/

/-- C2's input line. -/
def lineC2 : List Char :=
  "Tenant shall: a. pay rent b. maintain premises".data

/-- An ISO-shaped token that is not a real calendar date. -/
def textC1 : List Char := "2021-13-45".data

/-- A text containing the claim C6 phrase and bare date, plus an
earlier occurrence of the same (first) pattern. -/
def textC6bad : List Char :=
  "Effective Date: January 1, 1999 Effective Date: March 3, 2021 2021-03-03".data

/-- A text containing the claim C6 phrase and bare date, with an
earlier bare ISO date but no earlier phrase match. -/
def textC6good : List Char :=
  "As of 2020-12-31 terminated. Effective Date: March 3, 2021. Ref 2021-03-03.".data

/-- A 13-word fully upper-case title containing a character outside
`SEC_ALLCAPS_RE`'s class. -/
def titleC3 : List Char := "AA BB CC DD EE FF GG HH II JJ KK LL (M)".data

/-- C7's witness pages. -/
def pagesW7 : List (List Char) := ["TERMS\n(a) First\n(b) Second".data]

/-- The section `parse_sections` produces for `pagesW7`. -/
def secW7 : Section :=
  ⟨"Terms".data, none,
    [⟨"First".data, "a".data, 0⟩, ⟨"Second".data, "b".data, 1⟩]⟩

/-! ### Lemmas: adjacent-pair invariants for the substitution passes. -/

theorem andE {a b : Bool} (h : (a && b) = true) : a = true ∧ b = true := by
  cases a <;> cases b <;> simp_all

theorem noPair_nil {P : Char → Char → Bool} : noPair P [] = true := rfl

theorem noPair_one {P : Char → Char → Bool} {a : Char} :
    noPair P [a] = true := rfl

theorem noPair_two {P : Char → Char → Bool} {a b : Char} {l : List Char} :
    noPair P (a :: b :: l) = (!P a b && noPair P (b :: l)) := rfl

theorem noPair_tail {P : Char → Char → Bool} {a : Char} {l : List Char}
    (h : noPair P (a :: l) = true) : noPair P l = true := by
  cases l with
  | nil => rfl
  | cons b rest => exact (andE (noPair_two ▸ h)).2

theorem noPair_cons_head {P : Char → Char → Bool} {b : Char} {l : List Char}
    (hh : ∀ c, l.head? = some c → P b c = false)
    (hl : noPair P l = true) : noPair P (b :: l) = true := by
  cases l with
  | nil => rfl
  | cons c rest =>
    rw [noPair_two, hh c rfl, hl]
    rfl

theorem reSub2_head (P : Char → Char → Bool) :
    ∀ l : List Char, (reSub2 P l).head? = l.head?
  | [] => rfl
  | [_] => rfl
  | a :: b :: rest => by
    unfold reSub2
    cases h : P a b <;> simp [h]

theorem reSub2_fix (P : Char → Char → Bool) :
    ∀ l : List Char, noPair P l = true → reSub2 P l = l
  | [], _ => rfl
  | [_], _ => rfl
  | a :: b :: rest, h => by
    obtain ⟨h1, h2⟩ := andE (noPair_two ▸ h)
    have h1' : P a b = false := by simpa using h1
    unfold reSub2
    simp only [h1', Bool.false_eq_true, if_false]
    rw [reSub2_fix P (b :: rest) h2]

theorem reSub2_noPair (P : Char → Char → Bool)
    (Hd : ∀ a b c, P a b = true → P b c = false)
    (Hs1 : ∀ a, P a ' ' = false) (Hs2 : ∀ b, P ' ' b = false) :
    ∀ l : List Char, noPair P (reSub2 P l) = true
  | [] => rfl
  | [_] => rfl
  | a :: b :: rest => by
    have hX : noPair P (reSub2 P rest) = true :=
      reSub2_noPair P Hd Hs1 Hs2 rest
    have hXb : noPair P (reSub2 P (b :: rest)) = true :=
      reSub2_noPair P Hd Hs1 Hs2 (b :: rest)
    unfold reSub2
    cases hPab : P a b with
    | true =>
      simp only [if_true]
      have hbc : ∀ c, (reSub2 P rest).head? = some c → P b c = false := by
        intro c hc
        rw [reSub2_head] at hc
        cases rest with
        | nil => simp at hc
        | cons d tail =>
          simp only [List.head?_cons, Option.some.injEq] at hc
          exact hc ▸ Hd a b d hPab
      have h3 : noPair P (b :: reSub2 P rest) = true :=
        noPair_cons_head hbc hX
      rw [noPair_two, Hs1 a, noPair_two, Hs2 b, h3]
      rfl
    | false =>
      simp only [Bool.false_eq_true, if_false]
      have hab : ∀ c, (reSub2 P (b :: rest)).head? = some c → P a c = false := by
        intro c hc
        rw [reSub2_head] at hc
        simp only [List.head?_cons, Option.some.injEq] at hc
        exact hc ▸ hPab
      exact noPair_cons_head hab hXb

theorem reSub2_pres (P Q : Char → Char → Bool)
    (Hq1 : ∀ a, Q a ' ' = false) (Hq2 : ∀ b, Q ' ' b = false) :
    ∀ l : List Char, noPair Q l = true → noPair Q (reSub2 P l) = true
  | [], _ => rfl
  | [_], _ => rfl
  | a :: b :: rest, h => by
    obtain ⟨hQab, hQbr⟩ := andE (noPair_two ▸ h)
    unfold reSub2
    cases hPab : P a b with
    | true =>
      simp only [if_true]
      have hX : noPair Q (reSub2 P rest) = true :=
        reSub2_pres P Q Hq1 Hq2 rest (noPair_tail hQbr)
      have hbc : ∀ c, (reSub2 P rest).head? = some c → Q b c = false := by
        intro c hc
        rw [reSub2_head] at hc
        cases rest with
        | nil => simp at hc
        | cons d tail =>
          simp only [List.head?_cons, Option.some.injEq] at hc
          subst hc
          have := (andE (noPair_two ▸ hQbr)).1
          simpa using this
      have h3 : noPair Q (b :: reSub2 P rest) = true :=
        noPair_cons_head hbc hX
      rw [noPair_two, Hq1 a, noPair_two, Hq2 b, h3]
      rfl
    | false =>
      simp only [Bool.false_eq_true, if_false]
      have hXb : noPair Q (reSub2 P (b :: rest)) = true :=
        reSub2_pres P Q Hq1 Hq2 (b :: rest) hQbr
      have hab : ∀ c, (reSub2 P (b :: rest)).head? = some c → Q a c = false := by
        intro c hc
        rw [reSub2_head] at hc
        simp only [List.head?_cons, Option.some.injEq] at hc
        subst hc
        simpa using hQab
      exact noPair_cons_head hab hXb

/-! ### Lemmas: desquash idempotence. -/

theorem isUpperA_not_lower {c : Char} (h : isUpperA c = true) :
    isLowerA c = false := by
  cases hl : isLowerA c with
  | false => rfl
  | true =>
    exfalso
    simp only [isUpperA, Bool.and_eq_true, decide_eq_true_eq] at h
    simp only [isLowerA, Bool.and_eq_true, decide_eq_true_eq] at hl
    omega

theorem isDigitA_not_alpha {c : Char} (h : isDigitA c = true) :
    isAlphaA c = false := by
  cases hl : isAlphaA c with
  | false => rfl
  | true =>
    exfalso
    simp only [isDigitA, Bool.and_eq_true, decide_eq_true_eq] at h
    simp only [isAlphaA, isLowerA, isUpperA, Bool.or_eq_true,
      Bool.and_eq_true, decide_eq_true_eq] at hl
    omega

theorem isAlphaA_not_digit {c : Char} (h : isAlphaA c = true) :
    isDigitA c = false := by
  cases hl : isDigitA c with
  | false => rfl
  | true =>
    exfalso
    simp only [isAlphaA, isLowerA, isUpperA, Bool.or_eq_true,
      Bool.and_eq_true, decide_eq_true_eq] at h
    simp only [isDigitA, Bool.and_eq_true, decide_eq_true_eq] at hl
    omega

theorem gapLU_chain : ∀ a b c, gapLU a b = true → gapLU b c = false := by
  intro a b c h
  have hb : isUpperA b = true := (andE h).2
  simp [gapLU, isUpperA_not_lower hb]

theorem gapLD_chain : ∀ a b c, gapLD a b = true → gapLD b c = false := by
  intro a b c h
  have hb : isDigitA b = true := (andE h).2
  simp [gapLD, isDigitA_not_alpha hb]

theorem gapDL_chain : ∀ a b c, gapDL a b = true → gapDL b c = false := by
  intro a b c h
  have hb : isAlphaA b = true := (andE h).2
  simp [gapDL, isAlphaA_not_digit hb]

theorem gapLU_sp1 : ∀ a, gapLU a ' ' = false := by
  intro a
  simp [gapLU, show isUpperA ' ' = false from rfl]

theorem gapLU_sp2 : ∀ b, gapLU ' ' b = false := by
  intro b
  simp [gapLU, show isLowerA ' ' = false from rfl]

theorem gapLD_sp1 : ∀ a, gapLD a ' ' = false := by
  intro a
  simp [gapLD, show isDigitA ' ' = false from rfl]

theorem gapLD_sp2 : ∀ b, gapLD ' ' b = false := by
  intro b
  simp [gapLD, show isAlphaA ' ' = false from rfl]

theorem gapDL_sp1 : ∀ a, gapDL a ' ' = false := by
  intro a
  simp [gapDL, show isAlphaA ' ' = false from rfl]

theorem gapDL_sp2 : ∀ b, gapDL ' ' b = false := by
  intro b
  simp [gapDL, show isDigitA ' ' = false from rfl]

theorem reSub2_eq_nil {P : Char → Char → Bool} :
    ∀ l : List Char, reSub2 P l = [] → l = []
  | [], _ => rfl
  | [a], h => by simp [reSub2] at h
  | a :: b :: rest, h => by
    unfold reSub2 at h
    cases hP : P a b <;> simp [hP] at h

theorem desquash_idem (s : List Char) :
    desquash (desquash s) = desquash s := by
  by_cases hs : s = []
  · subst hs; rfl
  · have hds : desquash s = reSub2 gapDL (reSub2 gapLD (reSub2 gapLU s)) := by
      simp [desquash, hs]
    have hne : desquash s ≠ [] := by
      rw [hds]
      intro hcon
      exact hs (reSub2_eq_nil _ (reSub2_eq_nil _ (reSub2_eq_nil _ hcon)))
    have h1 : noPair gapLU (desquash s) = true := by
      rw [hds]
      exact reSub2_pres gapDL gapLU gapLU_sp1 gapLU_sp2 _
        (reSub2_pres gapLD gapLU gapLU_sp1 gapLU_sp2 _
          (reSub2_noPair gapLU gapLU_chain gapLU_sp1 gapLU_sp2 s))
    have h2 : noPair gapLD (desquash s) = true := by
      rw [hds]
      exact reSub2_pres gapDL gapLD gapLD_sp1 gapLD_sp2 _
        (reSub2_noPair gapLD gapLD_chain gapLD_sp1 gapLD_sp2 _)
    have h3 : noPair gapDL (desquash s) = true := by
      rw [hds]
      exact reSub2_noPair gapDL gapDL_chain gapDL_sp1 gapDL_sp2 _
    have hstep : ∀ x : List Char, x ≠ [] →
        desquash x = reSub2 gapDL (reSub2 gapLD (reSub2 gapLU x)) := by
      intro x hx
      simp [desquash, hx]
    calc desquash (desquash s)
        = reSub2 gapDL (reSub2 gapLD (reSub2 gapLU (desquash s))) :=
          hstep _ hne
      _ = desquash s := by
          rw [reSub2_fix gapLU _ h1, reSub2_fix gapLD _ h2,
            reSub2_fix gapDL _ h3]

/-! ### Lemmas: norm_ws idempotence. -/

theorem wsSubAux_onlySpace : ∀ (b : Bool) (l : List Char),
    onlySpace (wsSubAux b l) = true
  | _, [] => rfl
  | b, c :: rest => by
    unfold wsSubAux
    cases hc : isWs c with
    | true =>
      cases b with
      | true => simpa using wsSubAux_onlySpace true rest
      | false =>
        simp only [if_true]
        have := wsSubAux_onlySpace true rest
        simp [onlySpace] at this ⊢
        exact this
    | false =>
      simp only [Bool.false_eq_true, if_false]
      have := wsSubAux_onlySpace false rest
      simp [onlySpace, hc] at this ⊢
      exact this

theorem headOkWs_head {l : List Char} (h : headOkWs l = true) :
    ∀ c, l.head? = some c → isWs c = false := by
  intro c hc
  cases l with
  | nil => simp at hc
  | cons d rest =>
    simp only [List.head?_cons, Option.some.injEq] at hc
    subst hc
    simpa [headOkWs] using h

theorem wsSubAux_shape : ∀ l : List Char,
    noPair wsPair (wsSubAux false l) = true ∧
      noPair wsPair (wsSubAux true l) = true ∧
      headOkWs (wsSubAux true l) = true
  | [] => ⟨rfl, rfl, rfl⟩
  | c :: rest => by
    obtain ⟨ihf, iht, ihh⟩ := wsSubAux_shape rest
    unfold wsSubAux
    cases hc : isWs c with
    | true =>
      simp only [if_true]
      refine ⟨?_, iht, ihh⟩
      have hhead : ∀ d, (wsSubAux true rest).head? = some d →
          wsPair ' ' d = false := by
        intro d hd
        simp [wsPair, headOkWs_head ihh d hd]
      exact noPair_cons_head hhead iht
    | false =>
      simp only [Bool.false_eq_true, if_false]
      have hhead : ∀ d, (wsSubAux false rest).head? = some d →
          wsPair c d = false := by
        intro d _
        simp [wsPair, hc]
      exact ⟨noPair_cons_head hhead ihf, noPair_cons_head hhead ihf,
        by simpa [headOkWs] using hc⟩

theorem dropWhile_headOkWs : ∀ l : List Char,
    headOkWs (l.dropWhile isWs) = true
  | [] => rfl
  | c :: rest => by
    rw [List.dropWhile_cons]
    cases hc : isWs c with
    | true => simpa using dropWhile_headOkWs rest
    | false => simpa [headOkWs] using hc

theorem noPair_dropWhile {P : Char → Char → Bool} (q : Char → Bool) :
    ∀ l : List Char, noPair P l = true → noPair P (l.dropWhile q) = true
  | [], _ => rfl
  | c :: rest, h => by
    rw [List.dropWhile_cons]
    cases hc : q c with
    | true =>
      simpa using noPair_dropWhile q rest (noPair_tail h)
    | false => simpa using h

theorem onlySpace_dropWhile (q : Char → Bool) :
    ∀ l : List Char, onlySpace l = true → onlySpace (l.dropWhile q) = true
  | [], _ => rfl
  | c :: rest, h => by
    rw [List.dropWhile_cons]
    have hc' : onlySpace rest = true := by
      simp [onlySpace] at h ⊢
      exact fun a ha => h.2 a ha
    cases hc : q c with
    | true => simpa using onlySpace_dropWhile q rest hc'
    | false => simpa using h

theorem dropRunEnd_decomp (p : Char → Bool) :
    ∀ l : List Char, ∃ t, l = dropRunEnd p l ++ t
  | [] => ⟨[], rfl⟩
  | c :: rest => by
    obtain ⟨t, ht⟩ := dropRunEnd_decomp p rest
    unfold dropRunEnd
    cases hr : dropRunEnd p rest with
    | nil =>
      cases hp : p c with
      | true =>
        refine ⟨c :: rest, ?_⟩
        simp
      | false =>
        refine ⟨rest, ?_⟩
        simp
    | cons d tail =>
      refine ⟨t, ?_⟩
      rw [hr] at ht
      simpa using ht

theorem noPair_append_left {P : Char → Char → Bool} :
    ∀ (l1 l2 : List Char), noPair P (l1 ++ l2) = true → noPair P l1 = true
  | [], _, _ => rfl
  | [_], _, _ => rfl
  | a :: b :: rest, l2, h => by
    have h' : noPair P (a :: b :: (rest ++ l2)) = true := by simpa using h
    obtain ⟨h1, h2⟩ := andE (noPair_two ▸ h')
    rw [noPair_two, h1]
    simpa using noPair_append_left (b :: rest) l2 (by simpa using h2)

theorem onlySpace_append_left {l1 l2 : List Char}
    (h : onlySpace (l1 ++ l2) = true) : onlySpace l1 = true := by
  simp [onlySpace] at h ⊢
  exact fun c hc => h.1 c hc

theorem headOkWs_append_left {l1 l2 : List Char}
    (h : headOkWs (l1 ++ l2) = true) (hne : l1 ≠ []) :
    headOkWs l1 = true := by
  cases l1 with
  | nil => rfl
  | cons c rest => simpa [headOkWs] using h

theorem dropRunEnd_lastOkWs : ∀ l : List Char,
    lastOkWs (dropRunEnd isWs l) = true
  | [] => rfl
  | c :: rest => by
    unfold dropRunEnd
    cases hr : dropRunEnd isWs rest with
    | nil =>
      cases hc : isWs c with
      | true => simp [lastOkWs]
      | false => simpa [lastOkWs] using hc
    | cons d tail =>
      have := dropRunEnd_lastOkWs rest
      rw [hr] at this
      simpa [lastOkWs] using this

theorem wsSubAux_true_eq_false {l : List Char} (h : headOkWs l = true) :
    wsSubAux true l = wsSubAux false l := by
  cases l with
  | nil => rfl
  | cons c rest =>
    have hc : isWs c = false := by simpa [headOkWs] using h
    unfold wsSubAux
    simp [hc]

theorem onlySpace_head {c : Char} {rest : List Char}
    (h : onlySpace (c :: rest) = true) (hc : isWs c = true) : c = ' ' := by
  simp [onlySpace, hc] at h
  exact h.1

theorem wsSubAux_fix : ∀ l : List Char, onlySpace l = true →
    noPair wsPair l = true → wsSubAux false l = l
  | [], _, _ => rfl
  | c :: rest, hos, hnp => by
    have hosr : onlySpace rest = true := by
      simp [onlySpace] at hos ⊢
      exact fun a ha => hos.2 a ha
    have hnpr : noPair wsPair rest = true := noPair_tail hnp
    unfold wsSubAux
    cases hc : isWs c with
    | false =>
      simp only [Bool.false_eq_true, if_false]
      rw [wsSubAux_fix rest hosr hnpr]
    | true =>
      simp only [Bool.false_eq_true, if_false, if_true]
      have hcsp : c = ' ' := onlySpace_head hos hc
      have hhr : headOkWs rest = true := by
        cases rest with
        | nil => rfl
        | cons d tail =>
          obtain ⟨h1, _⟩ := andE (noPair_two ▸ hnp)
          have : wsPair c d = false := by simpa using h1
          simp only [wsPair, hc, Bool.true_and] at this
          simpa [headOkWs] using this
      rw [wsSubAux_true_eq_false hhr, wsSubAux_fix rest hosr hnpr, hcsp]

theorem dropWhile_fix {l : List Char} (h : headOkWs l = true) :
    l.dropWhile isWs = l := by
  cases l with
  | nil => rfl
  | cons c rest =>
    have hc : isWs c = false := by simpa [headOkWs] using h
    simp [List.dropWhile_cons, hc]

theorem dropRunEnd_fix : ∀ l : List Char, lastOkWs l = true →
    dropRunEnd isWs l = l
  | [], _ => rfl
  | c :: rest, h => by
    cases rest with
    | nil =>
      have hc : isWs c = false := by simpa [lastOkWs] using h
      simp [dropRunEnd, hc]
    | cons d tail =>
      have h' : lastOkWs (d :: tail) = true := by
        simpa [lastOkWs] using h
      have hr : dropRunEnd isWs (d :: tail) = d :: tail :=
        dropRunEnd_fix (d :: tail) h'
      unfold dropRunEnd
      rw [hr]

theorem norm_ws_invariants (s : List Char) :
    onlySpace (norm_ws s) = true ∧ noPair wsPair (norm_ws s) = true ∧
      headOkWs (norm_ws s) = true ∧ lastOkWs (norm_ws s) = true := by
  have hos0 : onlySpace (wsSubAux false s) = true := wsSubAux_onlySpace false s
  have hnp0 : noPair wsPair (wsSubAux false s) = true := (wsSubAux_shape s).1
  have hos1 : onlySpace ((wsSubAux false s).dropWhile isWs) = true :=
    onlySpace_dropWhile isWs _ hos0
  have hnp1 : noPair wsPair ((wsSubAux false s).dropWhile isWs) = true :=
    noPair_dropWhile isWs _ hnp0
  have hh1 : headOkWs ((wsSubAux false s).dropWhile isWs) = true :=
    dropWhile_headOkWs _
  obtain ⟨t, ht⟩ := dropRunEnd_decomp isWs ((wsSubAux false s).dropWhile isWs)
  constructor
  · exact onlySpace_append_left (ht ▸ hos1)
  constructor
  · exact noPair_append_left _ t (ht ▸ hnp1)
  constructor
  · show headOkWs (dropRunEnd isWs ((wsSubAux false s).dropWhile isWs)) = true
    cases hcase : dropRunEnd isWs ((wsSubAux false s).dropWhile isWs) with
    | nil => rfl
    | cons c rest =>
      exact headOkWs_append_left (hcase ▸ ht ▸ hh1) (by simp [hcase])
  · exact dropRunEnd_lastOkWs _

theorem norm_ws_fix {l : List Char} (h1 : onlySpace l = true)
    (h2 : noPair wsPair l = true) (h3 : headOkWs l = true)
    (h4 : lastOkWs l = true) : norm_ws l = l := by
  unfold norm_ws pyStrip
  rw [wsSubAux_fix l h1 h2, dropWhile_fix h3, dropRunEnd_fix l h4]

theorem norm_ws_idem (s : List Char) : norm_ws (norm_ws s) = norm_ws s := by
  obtain ⟨h1, h2, h3, h4⟩ := norm_ws_invariants s
  exact norm_ws_fix h1 h2 h3 h4

/-! ### Lemmas: flattening the `likely_heading` decision chain. -/

theorem decide_bool (b : Bool) : decide (b = true) = b := by
  cases b <;> simp

theorem if_reject (a x : Bool) : (if a = true then false else x) = (!a && x) := by
  cases a <;> simp

theorem if_accept (a x : Bool) : (if a = true then true else x) = (a || x) := by
  cases a <;> simp

theorem if_reject' (p : Prop) [Decidable p] (x : Bool) :
    (if p then false else x) = (!decide p && x) := by
  by_cases h : p <;> simp [h]

theorem if_accept' (p : Prop) [Decidable p] (x : Bool) :
    (if p then true else x) = (decide p || x) := by
  by_cases h : p <;> simp [h]

/-! ### Lemmas: the section-assembler loop. -/

theorem stepLine_some (st : PSState) (l : List Char) :
    ((stepLine st l).curTitle).isSome = true := by
  unfold stepLine
  cases headingOf l with
  | some nt => rfl
  | none => cases st.curTitle <;> rfl

theorem flushSec_decomp (st : PSState) :
    ∃ t, (flushSec st).sections = st.sections ++ t := by
  unfold flushSec
  cases st.curTitle with
  | none => exact ⟨[], by simp⟩
  | some ttl => exact ⟨_, rfl⟩

theorem stepLine_decomp (st : PSState) (l : List Char) :
    ∃ t, (stepLine st l).sections = st.sections ++ t := by
  unfold stepLine
  cases headingOf l with
  | some nt => simpa using flushSec_decomp st
  | none => exact ⟨[], by simp⟩

theorem secGo_decomp : ∀ (lines : List (List Char)) (st : PSState),
    ∃ t, secGo st lines = st.sections ++ t
  | [], st => by
    unfold secGo
    exact flushSec_decomp st
  | l :: rest, st => by
    obtain ⟨t1, h1⟩ := stepLine_decomp st l
    obtain ⟨t2, h2⟩ := secGo_decomp rest (stepLine st l)
    exact ⟨t1 ++ t2, by rw [show secGo st (l :: rest) =
      secGo (stepLine st l) rest from rfl, h2, h1, List.append_assoc]⟩

theorem secGo_ne_nil : ∀ (lines : List (List Char)) (st : PSState),
    st.curTitle.isSome = true → secGo st lines ≠ []
  | [], st, h => by
    unfold secGo flushSec
    cases hT : st.curTitle with
    | none => rw [hT] at h; simp at h
    | some ttl => simp
  | l :: rest, st, _ => by
    show secGo (stepLine st l) rest ≠ []
    exact secGo_ne_nil rest (stepLine st l) (stepLine_some st l)

theorem parse_sections_empty_iff (pages : List (List Char)) :
    parse_sections pages = [] ↔ rawLines pages = [] := by
  constructor
  · intro h
    cases hr : rawLines pages with
    | nil => rfl
    | cons l rest =>
      exfalso
      unfold parse_sections at h
      rw [hr] at h
      exact secGo_ne_nil rest (stepLine ⟨[], none, none, []⟩ l)
        (stepLine_some _ l) h
  · intro h
    unfold parse_sections
    rw [h]
    rfl

/-! ### Lemmas: clause indices. -/

theorem reindexFrom_length : ∀ (k : Nat) (cs : List Clause),
    (reindexFrom k cs).length = cs.length
  | _, [] => rfl
  | k, _ :: rest => by
    simp [reindexFrom, reindexFrom_length (k + 1) rest]

theorem reindexFrom_index : ∀ (k : Nat) (cs : List Clause) (i : Nat)
    (hi : i < (reindexFrom k cs).length),
    ((reindexFrom k cs).get ⟨i, hi⟩).index = k + i
  | _, [], i, hi => by simp [reindexFrom] at hi
  | k, c :: rest, 0, _ => by simp [reindexFrom]
  | k, c :: rest, i + 1, hi => by
    have hi' : i < (reindexFrom (k + 1) rest).length := by
      simpa [reindexFrom] using hi
    have := reindexFrom_index (k + 1) rest i hi'
    simp only [reindexFrom, List.get_cons_succ]
    rw [this]
    omega

theorem segment_clauses_index (lines : List (List Char)) (i : Nat)
    (hi : i < (segment_clauses lines).length) :
    ((segment_clauses lines).get ⟨i, hi⟩).index = i := by
  have := reindexFrom_index 0 (segLoop [] [] [] lines) i (by
    simpa [segment_clauses] using hi)
  simpa [segment_clauses] using this

theorem flushSec_clauses (st : PSState)
    (h : ∀ s ∈ st.sections, ∃ L, s.clauses = segment_clauses L) :
    ∀ s ∈ (flushSec st).sections, ∃ L, s.clauses = segment_clauses L := by
  intro s hs
  unfold flushSec at hs
  cases hT : st.curTitle with
  | none =>
    rw [hT] at hs
    exact h s hs
  | some ttl =>
    rw [hT] at hs
    simp only [List.mem_append, List.mem_singleton] at hs
    cases hs with
    | inl hmem => exact h s hmem
    | inr heq => exact ⟨_, by rw [heq]⟩

theorem stepLine_clauses (st : PSState) (l : List Char)
    (h : ∀ s ∈ st.sections, ∃ L, s.clauses = segment_clauses L) :
    ∀ s ∈ (stepLine st l).sections, ∃ L, s.clauses = segment_clauses L := by
  intro s hs
  unfold stepLine at hs
  cases hl : headingOf l with
  | some nt =>
    rw [hl] at hs
    exact flushSec_clauses st h s hs
  | none =>
    rw [hl] at hs
    exact h s hs

theorem secGo_clauses : ∀ (lines : List (List Char)) (st : PSState),
    (∀ s ∈ st.sections, ∃ L, s.clauses = segment_clauses L) →
    ∀ s ∈ secGo st lines, ∃ L, s.clauses = segment_clauses L
  | [], st, h => by
    unfold secGo
    exact flushSec_clauses st h
  | l :: rest, st, h =>
    secGo_clauses rest (stepLine st l) (stepLine_clauses st l h)

theorem parse_sections_clauses (pages : List (List Char)) (s : Section)
    (hs : s ∈ parse_sections pages) : ∃ L, s.clauses = segment_clauses L :=
  secGo_clauses (rawLines pages) ⟨[], none, none, []⟩ (by simp) s hs

/-! ### Lemmas: the effective-date extractor's output shape. -/

theorem digitChar_digit : ∀ m : Nat, m < 10 → isDigitA (digitChar m) = true := by
  intro m hm
  interval_cases m <;> rfl

theorem digitChar_mod (n : Nat) : isDigitA (digitChar (n % 10)) = true :=
  digitChar_digit (n % 10) (Nat.mod_lt n (by omega))

theorem formatISO_shape (d : PyDate) : isoShape (formatISO d) = true := by
  show isoShape
      [digitChar (d.year / 1000 % 10), digitChar (d.year / 100 % 10),
        digitChar (d.year / 10 % 10), digitChar (d.year % 10), '-',
        digitChar (d.month / 10 % 10), digitChar (d.month % 10), '-',
        digitChar (d.day / 10 % 10), digitChar (d.day % 10)] = true
  simp [isoShape, digitChar_mod]

theorem strptimeBD_valid : ∀ (s : List Char) (d : PyDate),
    strptimeBD s = some d → d.valid = true := by
  intro s d h
  unfold strptimeBD at h
  cases hm : matchMonth s with
  | none => rw [hm] at h; exact absurd h (by simp)
  | some mr =>
    rw [hm] at h
    simp only at h
    split at h
    · exact absurd h (by simp)
    · cases hd : matchDay (takeRun isWs mr.2).2 with
      | none => rw [hd] at h; exact absurd h (by simp)
      | some dr =>
        rw [hd] at h
        simp only at h
        split at h
        · split at h
          · exact absurd h (by simp)
          · split at h
            · split at h
              · split at h
                · rename_i hvalid
                  have hdd : d = _ := (Option.some.inj h).symm
                  rw [hdd]
                  exact hvalid
                · exact absurd h (by simp)
              · exact absurd h (by simp)
            · exact absurd h (by simp)
        · exact absurd h (by simp)

theorem tryPatterns_shape (parse : List Char → Option PyDate)
    (txt : List Char) :
    ∀ (pats : List (List Char → Option (List Char))) (r : List Char),
      tryPatterns parse txt pats = some r → isoShape r = true
  | [], r, h => by simp [tryPatterns] at h
  | p :: rest, r, h => by
    unfold tryPatterns at h
    cases hs : p txt with
    | none =>
      rw [hs] at h
      exact tryPatterns_shape parse txt rest r h
    | some g =>
      rw [hs] at h
      simp only at h
      cases hp : parse (pyStrip g) with
      | some d =>
        rw [hp] at h
        have : r = formatISO d := (Option.some.inj h).symm
        rw [this]
        exact formatISO_shape d
      | none =>
        rw [hp] at h
        cases hiso : isoShape (pyStrip g) with
        | true =>
          rw [hiso] at h
          simp only [if_true] at h
          have : r = pyStrip g := (Option.some.inj h).symm
          rw [this]
          exact hiso
        | false =>
          rw [hiso] at h
          simp only [Bool.false_eq_true, if_false] at h
          exact tryPatterns_shape parse txt rest r h

/-! ### The claims. -/

/-- Claim C1, counterexample: on the text `2021-13-45`, whose only match is
the bare-ISO pattern and which fails to parse, `find_effective_date`
returns the token verbatim — a present value that is not a real
calendar date (month 13), refuting the claim that a malformed string
is never returned. -/
theorem c1_counterexample :
    find_effective_date strptimeBD textC1 = some textC1 ∧
      isRealISODate textC1 = false := by
  exact ⟨by decide, by decide⟩

/-- Claim C1, amended: whenever `find_effective_date` returns a value, that
value matches the syntactic shape `\d{4}-\d{2}-\d{2}` — either the
formatted result of a successful parse or an unparsed ISO-shaped token
returned verbatim — but it need not denote a real calendar date.  The
parser hypothesis states the `datetime` invariant every injected
parser satisfies. -/
theorem c1_iso_shape (parse : List Char → Option PyDate)
    (_hp : ∀ s d, parse s = some d → d.valid = true)
    (text r : List Char)
    (h : find_effective_date parse text = some r) : isoShape r = true :=
  tryPatterns_shape parse (' ' :: text ++ [' ']) DATE_PATTERNS r h

/-- Witness for `c1_iso_shape` at the concrete parser `strptimeBD` and
input `2021-13-45`. -/
theorem c1_witness :
    find_effective_date strptimeBD textC1 = some textC1 ∧
      isoShape textC1 = true :=
  ⟨by decide, c1_iso_shape strptimeBD strptimeBD_valid textC1 textC1
    (by decide)⟩

/-- Claim C2, counterexample: the claimed three-fragment output (with labels
`a`/`b` and no delimiters) is not what `explode_inline_bullets`
produces on the claim's input line. -/
theorem c2_counterexample :
    explode_inline_bullets lineC2 ≠
      ["Tenant shall:".data, "a pay rent".data,
        "b maintain premises".data] := by
  decide

/-- Claim C2, amended: the exploder yields exactly two fragments — the
preamble `"Tenant shall:"` and the single fragment
`"a. pay rent b. maintain premises"`: the label keeps its delimiter,
and the second enumerator `b.` is not split because enumerator tokens
are recognised only at the start of the line or after a
semicolon/colon plus whitespace. -/
theorem c2_two_fragments :
    explode_inline_bullets lineC2 =
      ["Tenant shall:".data, "a. pay rent b. maintain premises".data] := by
  decide

/-- Claim C3, counterexample: the claim's acceptance region disagrees with
`likely_heading` at `("1", "hello")` (the source also rejects titles
whose first letter is lowercase) and at `("1", titleC3)` (a 13-word
fully upper-case title containing `(`/`)` fails `SEC_ALLCAPS_RE`,
which is stricter than "fully upper-case"). -/
theorem c3_counterexample :
    (claimHeadingAccepts "1".data "hello".data = true ∧
      likely_heading "1".data "hello".data = false) ∧
      (claimHeadingAccepts "1".data titleC3 = true ∧
        likely_heading "1".data titleC3 = false) := by
  exact ⟨⟨by decide, by decide⟩, ⟨by decide, by decide⟩⟩

/-- Claim C3, amended: `likely_heading` accepts exactly the pairs whose
stripped title is at most 12 words, or at most 16 words consisting
only of upper-case letters, digits, spaces, `-`, `&`, `,` (at least 3
characters), provided none of the rejections applies — the claim's
list extended with "the title's first character is a lowercase
letter". -/
theorem c3_characterization (number title : List Char) :
    likely_heading number title = headingAccepts number title := by
  unfold likely_heading headingAccepts
  simp only [if_reject, if_reject', if_accept, if_accept', decide_bool,
    Bool.or_false, Bool.and_assoc]

/-- Claim C4, counterexample: a flush at end of input with nothing
accumulated in the section body does emit a section when a heading has
set the title — a single heading-only page yields one clauseless
section, refuting the parenthetical "emits no section". -/
theorem c4_counterexample :
    parse_sections ["GOVERNING LAW".data] =
      [⟨"Governing Law".data, none, []⟩] := by
  decide

/-- Claim C4, amended: a flush emits a section exactly when a title was
triggered, and any nonempty normalized line triggers one (a heading
sets its own title, any other line opens the `"Preamble"` section), so
the output is empty iff the input has no nonempty normalized line; in
particular a final flush with no accumulated title (and hence no body)
emits nothing. -/
theorem c4_emission_iff (pages : List (List Char)) :
    parse_sections pages = [] ↔ rawLines pages = [] :=
  parse_sections_empty_iff pages

/-- Claim C5: the line `35. The Buyer shall pay...` is classified as body
text by every heading shape, while `3. Payment Terms` is accepted as a
numbered heading with number `3` and title `Payment Terms`. -/
theorem c5_heading_cases :
    headingOf ("35. The Buyer shall pay...".data) = none ∧
      headingOf ("3. Payment Terms".data) =
        some (some "3".data, "Payment Terms".data) := by
  exact ⟨by decide, by decide⟩

/-- Claim C6, counterexample: a text containing both
`"Effective Date: March 3, 2021"` and a bare `"2021-03-03"` need not
yield `"2021-03-03"`: an earlier match of the same first pattern wins
(`re.search` is leftmost), so this text yields `"1999-01-01"`. -/
theorem c6_counterexample :
    hasSub ("Effective Date: March 3, 2021".data) textC6bad = true ∧
      hasSub ("2021-03-03".data) textC6bad = true ∧
      find_effective_date strptimeBD textC6bad =
        some ("1999-01-01".data) ∧
      ("1999-01-01".data : List Char) ≠ "2021-03-03".data := by
  exact ⟨by decide, by decide, by decide, by decide⟩

/-- Claim C6, amended: when the leftmost match of the first applicable
long-form pattern is `"March 3, 2021"`, the extractor returns
`"2021-03-03"` even though the bare-ISO pattern (last in the list)
would match an earlier, different date — patterns are tried in the
fixed list order and the first matching pattern wins. -/
theorem c6_precedence :
    hasSub ("Effective Date: March 3, 2021".data) textC6good = true ∧
      hasSub ("2021-03-03".data) textC6good = true ∧
      find_effective_date strptimeBD textC6good =
        some ("2021-03-03".data) ∧
      searchPat8 (' ' :: textC6good ++ [' ']) =
        some ("2020-12-31".data) := by
  exact ⟨by decide, by decide, by decide, by decide⟩

/-- Claim C7: in every section produced by `parse_sections`, the clause at
position `i` carries index `i` — indices are the dense positions
`0..len-1`, reassigned by `segment_clauses`' final pass. -/
theorem c7_index_contiguity (pages : List (List Char)) (s : Section)
    (hs : s ∈ parse_sections pages) (i : Nat)
    (hi : i < s.clauses.length) : (s.clauses.get ⟨i, hi⟩).index = i := by
  obtain ⟨L, hL⟩ := parse_sections_clauses pages s hs
  revert hi
  rw [hL]
  intro hi
  exact segment_clauses_index L i hi

/-- Witness for `c7_index_contiguity` on a two-clause section. -/
theorem c7_witness :
    secW7 ∈ parse_sections pagesW7 ∧
      (secW7.clauses.get ⟨1, by decide⟩).index = 1 :=
  ⟨by decide, c7_index_contiguity pagesW7 secW7 (by decide) 1 (by decide)⟩

/-- Claim C8: `norm_ws` and `desquash` are idempotent. -/
theorem c8_idempotence (s : List Char) :
    norm_ws (norm_ws s) = norm_ws s ∧
      desquash (desquash s) = desquash s :=
  ⟨norm_ws_idem s, desquash_idem s⟩

/-- Claim C9: the core pipeline is total by construction (every function of
this embedding is a total Lean function), always reports
`contract_type = "Agreement"`, and degrades gracefully on the empty
page sequence to the filename-derived title, no effective date and no
sections. -/
theorem c9_totality (parse : List Char → Option PyDate)
    (pages : List (List Char)) (fname : List Char) :
    (parse_contract_core parse pages fname).contract_type =
        "Agreement".data ∧
      (pages = [] → parse_contract_core parse pages fname =
        ⟨pyTitle (sepToSpace (stemOf fname)), "Agreement".data, none,
          []⟩) := by
  constructor
  · unfold parse_contract_core guess_title
    cases pages with
    | nil => cases h : (List.nil (α := List Char)).find? titleSearch <;>
        simp [h]
    | cons p rest => cases h : (splitLines p).find? titleSearch <;>
        simp [h]
  · intro h
    subst h
    rfl

/-- Witness for `c9_totality` on the empty page sequence. -/
theorem c9_witness :
    parse_contract_core strptimeBD [] ("contract.pdf".data) =
      ⟨"Contract".data, "Agreement".data, none, []⟩ :=
  ((c9_totality strptimeBD [] ("contract.pdf".data)).2 rfl).trans
    (by decide)

/-- Claim C10: a line that heading shape 1 does not accept but that matches
`SEC_ALLCAPS_RE` with at most 12 words and is fully upper-case becomes
a heading whose title is the Python-title-cased line and whose number
is absent. -/
theorem c10_allcaps_title (line : List Char)
    (h1 : secAccepts line = false) (h2 : sec_allcaps line = true)
    (h3 : (splitWs line).length ≤ 12) (h4 : pyIsUpper line = true) :
    headingOf line = some (none, pyTitle line) := by
  unfold headingOf
  unfold secAccepts at h1
  cases hm : secMatch line with
  | none => simp [h2, h3, h4]
  | some nt =>
    obtain ⟨num, ttl⟩ := nt
    rw [hm] at h1
    have h1' : likely_heading num ttl = false := h1
    simp [h1', h2, h3, h4]

/-- Witness for `c10_allcaps_title` at `"GOVERNING LAW"`. -/
theorem c10_witness :
    headingOf ("GOVERNING LAW".data) =
      some (none, "Governing Law".data) :=
  (c10_allcaps_title ("GOVERNING LAW".data) (by decide) (by decide)
    (by decide) (by decide)).trans (by decide)

end PDFCli
